import Mathlib

/-!
Verification of the valtio snapshot/versioning/change-detection engine
against its natural-language specification.

The repository provides `src/react.ts` (the `useSnapshot` hook).  The
vanilla engine (`./vanilla`: `snapshot`, `getVersion`, `subscribe`) and the
comparator library (`proxy-compare`: `isChanged`, `createProxy`) are only
imported there, so those operations are modelled from the spec
(sections 4.1-4.6) as indicated on each definition.  Object identity
("same reference") is modelled with explicit numeric identity tags.
-/

namespace Valtio

/-- Modelled from the spec (4.1 Interception Layer, 4.2 Version Store):
a wrapped state node is a mutable tree whose inner nodes carry an identity
tag and a version counter; leaves hold primitive values.  The source file
`vanilla.ts` is not part of the provided sources. -/
inductive PTree : Type where
  | prim : Int → PTree
  | node : Nat → Nat → List (String × PTree) → PTree

/-- Field lookup in a node's field list. -/
def lookupF (k : String) : List (String × PTree) → Option PTree
  | [] => none
  | (k', t) :: tl => if k' == k then some t else lookupF k tl

/-- Replace the value stored under key `k`. -/
def updateF (fs : List (String × PTree)) (k : String) (v : PTree) :
    List (String × PTree) :=
  match fs with
  | [] => []
  | (k', t) :: tl => if k' == k then (k, v) :: tl else (k', t) :: updateF tl k v

/-- Modelled from the spec (4.1): writing a primitive value at a path.
Returns the new tree and whether the write changed anything.  A write of
a value identical to the stored one is a complete no-op (`false`); an
effective write bumps the version of the node holding the field and of
every ancestor along the path. -/
def setPath : PTree → List String → Int → PTree × Bool
  | t, [], _ => (t, false)
  | .prim n, _ :: _, _ => (.prim n, false)
  | .node i ver fs, [k], newVal =>
    match lookupF k fs with
    | some (.prim old) =>
      if old == newVal then (.node i ver fs, false)
      else (.node i (ver + 1) (updateF fs k (.prim newVal)), true)
    | some (.node _ _ _) =>
      (.node i (ver + 1) (updateF fs k (.prim newVal)), true)
    | none => (.node i (ver + 1) (fs ++ [(k, .prim newVal)]), true)
  | .node i ver fs, k :: k' :: rest, newVal =>
    match lookupF k fs with
    | some child =>
      match setPath child (k' :: rest) newVal with
      | (c2, true) => (.node i (ver + 1) (updateF fs k c2), true)
      | (_, false) => (.node i ver fs, false)
    | none => (.node i ver fs, false)

/-- The version of the inner node reached by a path (`none` when the path
does not reach an inner node). -/
def versionAt : PTree → List String → Option Nat
  | .node _ ver _, [] => some ver
  | .prim _, [] => none
  | .node _ _ fs, k :: rest =>
    match lookupF k fs with
    | some c => versionAt c rest
    | none => none
  | .prim _, _ :: _ => none

/-- The subtree reached by a path. -/
def lookupPath : PTree → List String → Option PTree
  | t, [] => some t
  | .node _ _ fs, k :: rest =>
    match lookupF k fs with
    | some c => lookupPath c rest
    | none => none
  | .prim _, _ :: _ => none

/-- Modelled from the spec (4.2 Version Store): `getVersion` returns the
version for a wrapped node and `undefined` (here `none`) for anything
else, never throwing. -/
def getVersion : PTree → Option Nat
  | .node _ ver _ => some ver
  | .prim _ => none

/-- Root version used by the snapshot cache (a primitive root has no
version; we use 0, it is never consulted for such roots in the claims). -/
def treeVersion : PTree → Nat
  | .node _ ver _ => ver
  | .prim _ => 0

/-- Modelled from the spec (4.4 Snapshot Builder): an immutable snapshot
value.  Inner objects carry an identity tag so that reference equality of
snapshots can be stated.  `thenable` stands for an asynchronous /
non-plain value whose structural comparison throws (7(c), 9 open
question). -/
inductive SnapVal : Type where
  | prim : Int → SnapVal
  | thenable : Nat → SnapVal
  | obj : Nat → List (String × SnapVal) → SnapVal

/-- Reference / primitive identity between snapshot values: objects and
thenables are identical when they are the same allocation (same tag),
primitives when they are the same value. -/
def sameRef : SnapVal → SnapVal → Bool
  | .prim a, .prim b => a == b
  | .thenable a, .thenable b => a == b
  | .obj i _, .obj j _ => i == j
  | _, _ => false

/-- Field lookup in a snapshot object. -/
def lookupS (k : String) : List (String × SnapVal) → Option SnapVal
  | [] => none
  | (k', v) :: tl => if k' == k then some v else lookupS k tl

mutual

/-- Modelled from the spec (4.4): recursively build a fresh immutable
snapshot of a tree, drawing object identity tags from a fresh-tag
supply. -/
def buildSnap : PTree → Nat → SnapVal × Nat
  | .prim n, f => (.prim n, f)
  | .node _ _ fs, f =>
    match buildSnapF fs (f + 1) with
    | (fs', f') => (.obj f fs', f')

/-- Snapshot the values of a field list, threading the fresh-tag supply. -/
def buildSnapF : List (String × PTree) → Nat → List (String × SnapVal) × Nat
  | [], f => ([], f)
  | (k, t) :: tl, f =>
    match buildSnap t f with
    | (s, f1) =>
      match buildSnapF tl f1 with
      | (tl', f2) => ((k, s) :: tl', f2)

end

/-- State of the snapshot cache attached to a wrapped root: the snapshot
last built together with the version it was built at, and the fresh-tag
supply for new snapshot objects. -/
structure SnapCache where
  cached : Option (Nat × SnapVal)
  nextTag : Nat

/-- Cache state of a freshly created root: nothing cached yet. -/
def initCache : SnapCache := ⟨none, 0⟩

/-- Modelled from the spec (4.4 Snapshot Builder): `snapshot(node)` returns
the cached immutable snapshot when one was built at the node's current
version, otherwise builds a fresh one and caches it against the current
version. -/
def snapshot (t : PTree) (c : SnapCache) : SnapVal × SnapCache :=
  match c.cached with
  | some (v, s) =>
    if v == treeVersion t then (s, c)
    else
      match buildSnap t c.nextTag with
      | (s2, f2) => (s2, ⟨some (treeVersion t, s2), f2⟩)
  | none =>
    match buildSnap t c.nextTag with
    | (s2, f2) => (s2, ⟨some (treeVersion t, s2), f2⟩)

mutual

/-- Modelled from the spec (Data Model, Affected Map; 4.5): what a
consumer recorded about one visited value: either it was touched without
descending (`used`), or the listed keys were read on it, each with its
own nested record. -/
inductive Affected : Type where
  | used : Affected
  | tracked : AffectedFields → Affected

/-- Association list of recorded keys of one visited object. -/
inductive AffectedFields : Type where
  | nil : AffectedFields
  | cons : String → Affected → AffectedFields → AffectedFields

end

mutual

/-- Modelled from the spec (4.6 Change Comparator) and the source comment
"ignore if a promise or something is thrown" (react.ts line 159):
`isChanged(prev, next, affected)` returns `false` when the references are
identical, otherwise walks the recorded keys; structural comparison of an
asynchronous value throws, modelled as `Except.error`. -/
def isChanged (prev next : SnapVal) (aff : Affected) : Except Unit Bool :=
  if sameRef prev next then .ok false
  else
    match aff with
    | .used => .ok true
    | .tracked fields =>
      match prev, next with
      | .thenable _, _ => .error ()
      | _, .thenable _ => .error ()
      | .obj _ pf, .obj _ nf => isChangedF pf nf fields
      | _, _ => .ok true
termination_by structural aff

/-- Walk the recorded keys of one object: a key present in only one side
counts as changed; a key present in both recurses with its nested
record. -/
def isChangedF (pf nf : List (String × SnapVal)) (fields : AffectedFields) :
    Except Unit Bool :=
  match fields with
  | .nil => .ok false
  | .cons k sub rest =>
    match lookupS k pf, lookupS k nf with
    | some pv, some nv =>
      match isChanged pv nv sub with
      | .error e => .error e
      | .ok true => .ok true
      | .ok false => isChangedF pf nf rest
    | none, none => isChangedF pf nf rest
    | _, _ => .ok true
termination_by structural fields

end

mutual

/-- Modelled from the spec (4.5 Affected-Path Recorder): record one read
access, given as the path of keys followed from the visited value; a key
already present has its nested record extended, a new key is appended. -/
def addPath : Affected → List String → Affected
  | a, [] => a
  | .used, k :: rest => .tracked (addPathF .nil k rest)
  | .tracked fs, k :: rest => .tracked (addPathF fs k rest)
termination_by a p => (p.length, sizeOf a + 1)

/-- Record the access `k :: rest` inside one object's key records. -/
def addPathF : AffectedFields → String → List String → AffectedFields
  | .nil, k, rest => .cons k (addPath .used rest) .nil
  | .cons k' sub tl, k, rest =>
    if k' == k then .cons k' (addPath sub rest) tl
    else .cons k' sub (addPathF tl k rest)
termination_by fs _ rest => (rest.length + 1, sizeOf fs)

end

mutual

/-- Path membership in an affected record: the empty path is always
recorded for a visited value; a longer path needs its head key recorded
and its tail recorded below it. -/
def affMem : Affected → List String → Bool
  | _, [] => true
  | .used, _ :: _ => false
  | .tracked fs, k :: rest => affMemF fs k rest
termination_by a p => (p.length, sizeOf a + 1)

/-- Membership of the access `k :: rest` in one object's key records. -/
def affMemF : AffectedFields → String → List String → Bool
  | .nil, _, _ => false
  | .cons k' sub tl, k, rest =>
    if k' == k then affMem sub rest else affMemF tl k rest
termination_by fs _ rest => (rest.length + 1, sizeOf fs)

end

/-- The affected record of a render pass: every access of the pass folded
into an initially empty record (the fresh `WeakMap` of react.ts line 124
starts empty and only receives the accesses of this pass). -/
def buildAffected (paths : List (List String)) : Affected :=
  paths.foldl addPath .used

/-- The per-consumer state that `useSnapshot` keeps in refs across
renders (react.ts lines 124-126): the identity tag of the committed
affected map with its contents, and the supply of fresh map identities
(each render allocates `new WeakMap()`). -/
structure ConsumerState where
  nextAffId : Nat
  lastAffected : Option (Nat × Affected)

/-- One render plus its commit effect (react.ts lines 124, 167-168): the
render allocates a fresh affected map which collects exactly this pass's
accesses; the effect installs it as `lastAffected.current`, replacing the
previous map. -/
def renderCommit (s : ConsumerState) (paths : List (List String)) : ConsumerState :=
  ⟨s.nextAffId + 1, some (s.nextAffId, buildAffected paths)⟩

/-- The `getSnapshot` closure of `useSnapshot` (react.ts lines 140-163):
given the freshly built snapshot, the remembered `prevSnapshot` and the
committed `lastAffected.current`, it returns the snapshot handed to the
consumer together with the new `prevSnapshot`.  The unchanged
short-circuit needs both refs set and `isChanged` returning `false`; a
thrown comparison is caught and the fresh snapshot adopted. -/
def getSnapshot (next : SnapVal) (prev : Option SnapVal)
    (lastAffected : Option Affected) : SnapVal × Option SnapVal :=
  match prev, lastAffected with
  | some p, some aff =>
    match isChanged p next aff with
    | .ok false => (p, some p)
    | .ok true => (next, some next)
    | .error _ => (next, some next)
  | some _, none => (next, some next)
  | none, _ => (next, some next)

/-- Outcome of the commit effect of `useSnapshot` (react.ts lines
166-180). -/
structure EffectResult where
  lastAffected : Affected
  callbackInvoked : Bool
  warned : Bool

/-- The commit effect of `useSnapshot` (react.ts lines 166-180): install
the render's affected map, then compare the version observed during
render with the version at commit time; on a mismatch invoke the stored
subscription callback when present, otherwise emit the dev warning.  The
effect is total: it never throws. -/
def commitEffect (affected : Affected) (currVersion nowVersion : Option Nat)
    (lastCallback : Bool) : EffectResult :=
  { lastAffected := affected
    callbackInvoked := if currVersion != nowVersion then lastCallback else false
    warned := if currVersion != nowVersion then !lastCallback else false }

/-- Modelled from the spec (4.5): the consumer-scoped cache of
`createProxy` maps the identity of a snapshot object to the identity of
its instrumented view, with a supply of fresh view identities. -/
structure ProxyCache where
  entries : List (Nat × Nat)
  nextView : Nat

/-- The cache `useSnapshot` creates once per hook instance
(react.ts line 185). -/
def emptyProxyCache : ProxyCache := ⟨[], 0⟩

/-- Cache lookup by snapshot-object identity. -/
def lookupC (i : Nat) : List (Nat × Nat) → Option Nat
  | [] => none
  | (j, v) :: tl => if j == i then some v else lookupC i tl

/-- Modelled from the spec (4.5 Affected-Path Recorder): `createProxy`
returns the identity of the instrumented view over a snapshot object,
reusing the cached view when the same snapshot object was wrapped before;
non-structural values are returned unwrapped (`none`). -/
def createProxy (s : SnapVal) (c : ProxyCache) : Option Nat × ProxyCache :=
  match s with
  | .obj i _ =>
    match lookupC i c.entries with
    | some vid => (some vid, c)
    | none => (some c.nextView, ⟨(i, c.nextView) :: c.entries, c.nextView + 1⟩)
  | _ => (none, c)

/-- The parts of a `useSnapshot` hook instance relevant to the proxy
cache: the cache object's identity (allocated at mount) and its
contents. -/
structure HookInst where
  cacheId : Nat
  cache : ProxyCache

/-- Mounting the hook allocates the per-instance cache
(react.ts line 185, `useMemo(() => new WeakMap(), [])`). -/
def mountHook (freshId : Nat) : HookInst := ⟨freshId, emptyProxyCache⟩

/-- One render of the hook as far as the proxy cache is concerned: the
memoised cache object is reused (its identity is untouched) and the
returned view is produced through it (react.ts lines 185-186). -/
def renderHook (h : HookInst) (snap : SnapVal) : Option Nat × HookInst :=
  match createProxy snap h.cache with
  | (v, c') => (v, ⟨h.cacheId, c'⟩)

/-- A mutation request: a path and the primitive value written there. -/
structure Mutation where
  path : List String
  value : Int

/-- State of one synchronous execution turn as seen by one batched
subscriber of the root: the tree, the number of effective mutations so
far (each of which notifies an immediate-mode subscriber synchronously),
whether a batched notification is pending, and how many batched
notifications have been delivered. -/
structure TurnState where
  tree : PTree
  effective : Nat
  pending : Bool
  delivered : Nat

/-- Modelled from the spec (4.3 Listener Registry): apply one mutation;
an effective mutation schedules the batched subscriber (idempotently) and
would notify an immediate subscriber at once; a no-op write schedules and
notifies nothing. -/
def applyMut (s : TurnState) (m : Mutation) : TurnState :=
  match setPath s.tree m.path m.value with
  | (t2, ch) =>
    { tree := t2
      effective := s.effective + (if ch then 1 else 0)
      pending := s.pending || ch
      delivered := s.delivered }

/-- Modelled from the spec (4.3, 5): the deferred microtask-equivalent
step at the end of the turn delivers at most one batched notification,
after all mutations of the turn have been applied. -/
def flushTurn (s : TurnState) : TurnState :=
  if s.pending then { s with pending := false, delivered := s.delivered + 1 }
  else s

/-- Run one synchronous turn of mutations followed by the deferred
delivery step. -/
def runTurn (t : PTree) (ops : List Mutation) : TurnState :=
  flushTurn (ops.foldl applyMut ⟨t, 0, false, 0⟩)

/-- Snapshot with a thenable field, for exercising the comparator's
throwing path. -/
def thenPrev : SnapVal := .obj 0 [("p", .thenable 0)]

/-- A later snapshot of the same shape with a different thenable. -/
def thenNext : SnapVal := .obj 1 [("p", .thenable 1)]

/-- An affected record that descends structurally into the thenable
field. -/
def thenAff : Affected := .tracked (.cons "p" (.tracked .nil) .nil)

/-- Claim C10: on the first snapshot read of a `useSnapshot` instance —
no previous snapshot yet, or no affected map committed yet
(`lastAffected.current` undefined) — the unchanged short-circuit is never
taken and `getSnapshot` returns the freshly built snapshot. -/
theorem first_pass_always_fresh :
    (∀ (next : SnapVal) (la : Option Affected),
      getSnapshot next none la = (next, some next)) ∧
    (∀ (next p : SnapVal), getSnapshot next (some p) none = (next, some next)) := by
  constructor
  · intro next la
    rfl
  · intro next p
    rfl

/-- Claim C2: if the change comparison throws (`isChanged` errors on an
unexpected shape such as an asynchronous value compared structurally),
`useSnapshot`'s `getSnapshot` catches it and adopts the fresh snapshot
instead of propagating the error. -/
theorem comparator_error_adopts_fresh (p next : SnapVal) (aff : Affected)
    (h : isChanged p next aff = .error ()) :
    getSnapshot next (some p) (some aff) = (next, some next) := by
  simp [getSnapshot, h]

/-- Concrete run of `comparator_error_adopts_fresh`: structurally
comparing snapshots holding asynchronous values throws, and the fresh
snapshot is adopted. -/
theorem comparator_error_adopts_fresh_witness :
    isChanged thenPrev thenNext thenAff = .error () ∧
    getSnapshot thenNext (some thenPrev) (some thenAff) = (thenNext, some thenNext) :=
  ⟨rfl, comparator_error_adopts_fresh thenPrev thenNext thenAff rfl⟩

/-- Claim C4: `snapshot(node)` called again with no intervening mutation
returns the identical cached snapshot (same reference, i.e. the very same
value including identity tags) and leaves the cache untouched. -/
theorem snapshot_identity_stable (t : PTree) (c : SnapCache) :
    snapshot t (snapshot t c).2 = snapshot t c := by
  cases hc : c.cached with
  | none =>
    rcases hb : buildSnap t c.nextTag with ⟨s2, f2⟩
    simp [snapshot, hc, hb]
  | some vs =>
    obtain ⟨v, s⟩ := vs
    by_cases hv : (v == treeVersion t) = true
    · simp [snapshot, hc, hv]
    · rcases hb : buildSnap t c.nextTag with ⟨s2, f2⟩
      simp [snapshot, hc, hv, hb]

/-- Claim C8: the instrumented-view cache is consumer scoped: wrapping the
same snapshot substructure again through the same cache yields the same
view identity (and the cache is unchanged), and a render of the hook
reuses the per-instance cache object allocated at mount instead of
creating a new one. -/
theorem proxy_cache_per_instance :
    (∀ (s : SnapVal) (c : ProxyCache),
      createProxy s (createProxy s c).2 = createProxy s c) ∧
    (∀ (h : HookInst) (snap : SnapVal),
      ((renderHook h snap).2).cacheId = h.cacheId ∧
      (renderHook (mountHook h.cacheId) snap).2.cacheId = h.cacheId) := by
  constructor
  · intro s c
    cases s with
    | prim n => rfl
    | thenable i => rfl
    | obj i fs =>
      cases hl : lookupC i c.entries with
      | some vid => simp [createProxy, hl]
      | none => simp [createProxy, hl, lookupC]
  · intro h snap
    constructor
    · rcases hb : createProxy snap h.cache with ⟨v, c'⟩
      simp [renderHook, hb]
    · rcases hb : createProxy snap emptyProxyCache with ⟨v, c'⟩
      simp [renderHook, mountHook, hb]

/-- A write of the value already stored at a path leaves the tree
untouched and reports no change. -/
theorem setPath_noop :
    ∀ (p : List String) (t : PTree) (v : Int),
      lookupPath t p = some (.prim v) → setPath t p v = (t, false) := by
  intro p
  induction p with
  | nil =>
    intro t v _
    simp [setPath]
  | cons k rest ih =>
    intro t v h
    cases t with
    | prim n => simp [lookupPath] at h
    | node i ver fs =>
      simp only [lookupPath] at h
      cases hf : lookupF k fs with
      | none => rw [hf] at h; simp at h
      | some c =>
        rw [hf] at h
        cases rest with
        | nil =>
          simp only [lookupPath] at h
          cases h
          simp [setPath, hf]
        | cons k' rest' =>
          have hc := ih c v h
          simp [setPath, hf, hc]

/-- Claim C5: writing a value identical to the stored one is a complete
no-op: the tree (hence every stored value and every version) is unchanged,
the write reports no change, and a turn consisting of that write delivers
no notification in either immediate or batched mode. -/
theorem noop_write_suppressed (t : PTree) (p : List String) (v : Int)
    (h : lookupPath t p = some (.prim v)) :
    setPath t p v = (t, false) ∧
    (runTurn t [⟨p, v⟩]).effective = 0 ∧
    (runTurn t [⟨p, v⟩]).delivered = 0 := by
  have hs := setPath_noop p t v h
  refine ⟨hs, ?_, ?_⟩ <;>
    simp [runTurn, applyMut, flushTurn, hs]

/-- Concrete run of `noop_write_suppressed`: rewriting `a` with its stored
value `1` changes nothing and notifies nobody. -/
theorem noop_write_suppressed_witness :
    lookupPath (.node 0 5 [("a", .prim 1)]) ["a"] = some (.prim 1) ∧
    setPath (.node 0 5 [("a", .prim 1)]) ["a"] 1 = (.node 0 5 [("a", .prim 1)], false) ∧
    (runTurn (.node 0 5 [("a", .prim 1)]) [⟨["a"], 1⟩]).effective = 0 ∧
    (runTurn (.node 0 5 [("a", .prim 1)]) [⟨["a"], 1⟩]).delivered = 0 :=
  ⟨rfl,
   (noop_write_suppressed (.node 0 5 [("a", .prim 1)]) ["a"] 1 rfl).1,
   (noop_write_suppressed (.node 0 5 [("a", .prim 1)]) ["a"] 1 rfl).2.1,
   (noop_write_suppressed (.node 0 5 [("a", .prim 1)]) ["a"] 1 rfl).2.2⟩

/-- Claim C3: when the version observed during render differs from the
version at commit time, the commit effect invokes the stored subscription
callback when one is present and only falls back to the dev warning when
it is not; the effect is a total function, so the condition is never
fatal. -/
theorem commit_version_mismatch_notifies (aff : Affected)
    (currVersion nowVersion : Option Nat) (lastCallback : Bool)
    (h : currVersion ≠ nowVersion) :
    (commitEffect aff currVersion nowVersion lastCallback).callbackInvoked
        = lastCallback ∧
    (commitEffect aff currVersion nowVersion lastCallback).warned
        = !lastCallback ∧
    (commitEffect aff currVersion nowVersion lastCallback).lastAffected = aff := by
  have hb : (currVersion != nowVersion) = true := by
    simpa [bne_iff_ne] using h
  simp [commitEffect, hb]

/-- Concrete run of `commit_version_mismatch_notifies`: version bumped
from 3 to 4 between render and commit, stored callback present: it is
invoked and no warning is emitted. -/
theorem commit_version_mismatch_notifies_witness :
    (commitEffect .used (some 3) (some 4) true).callbackInvoked = true ∧
    (commitEffect .used (some 3) (some 4) true).warned = !true ∧
    (commitEffect .used (some 3) (some 4) true).lastAffected = .used :=
  commit_version_mismatch_notifies .used (some 3) (some 4) true (by decide)

/-- Folding mutations over a turn never delivers batched notifications
mid-turn and never unschedules a pending one. -/
theorem foldl_applyMut_fields :
    ∀ (ops : List Mutation) (s : TurnState),
      (ops.foldl applyMut s).delivered = s.delivered ∧
      (s.pending = true → (ops.foldl applyMut s).pending = true) := by
  intro ops
  induction ops with
  | nil => intro s; exact ⟨rfl, fun h => h⟩
  | cons m ms ih =>
    intro s
    have h1 := ih (applyMut s m)
    refine ⟨by simpa using h1.1, fun hp => ?_⟩
    refine h1.2 ?_
    rcases hm : setPath s.tree m.path m.value with ⟨t2, ch⟩
    simp [applyMut, hm, hp]

/-- Claim C9: batched (non-immediate) delivery coalesces a whole
synchronous turn: at most one notification is delivered per subscriber
per turn, delivery happens only after every mutation of the turn has been
applied (the flush step does not touch the tree produced by the fold),
and a turn of three synchronous mutations whose first write is effective
delivers exactly one notification. -/
theorem batched_coalescing :
    (∀ (t : PTree) (ops : List Mutation),
      (runTurn t ops).delivered ≤ 1 ∧
      (runTurn t ops).tree = (ops.foldl applyMut ⟨t, 0, false, 0⟩).tree) ∧
    (∀ (t : PTree) (m1 m2 m3 : Mutation),
      (setPath t m1.path m1.value).2 = true →
      (runTurn t [m1, m2, m3]).delivered = 1) := by
  constructor
  · intro t ops
    have h := foldl_applyMut_fields ops ⟨t, 0, false, 0⟩
    constructor
    · simp only [runTurn, flushTurn]
      split
      · simp [h.1]
      · simp [h.1]
    · simp only [runTurn, flushTurn]
      split <;> rfl
  · intro t m1 m2 m3 h1
    rcases hm : setPath t m1.path m1.value with ⟨t2, ch⟩
    rw [hm] at h1
    subst h1
    have hstep : applyMut ⟨t, 0, false, 0⟩ m1
        = ⟨t2, 1, true, 0⟩ := by
      simp [applyMut, hm]
    have h2 := foldl_applyMut_fields [m2, m3] ⟨t2, 1, true, 0⟩
    have hp : ([m2, m3].foldl applyMut ⟨t2, 1, true, 0⟩).pending = true :=
      h2.2 rfl
    have hd : ([m2, m3].foldl applyMut ⟨t2, 1, true, 0⟩).delivered = 0 :=
      h2.1
    show (flushTurn ([m1, m2, m3].foldl applyMut ⟨t, 0, false, 0⟩)).delivered = 1
    have : [m1, m2, m3].foldl applyMut ⟨t, 0, false, 0⟩
        = [m2, m3].foldl applyMut ⟨t2, 1, true, 0⟩ := by
      simp [List.foldl, hstep]
    rw [this]
    simp only [List.foldl_cons, List.foldl_nil] at hp hd
    simp [flushTurn, hp, hd]

/-- Concrete run of `batched_coalescing`: three effective writes to the
same node in one turn deliver exactly one batched notification. -/
theorem batched_coalescing_witness :
    (setPath (.node 0 0 [("a", .prim 0)]) ["a"] 1).2 = true ∧
    (runTurn (.node 0 0 [("a", .prim 0)])
      [⟨["a"], 1⟩, ⟨["a"], 2⟩, ⟨["a"], 3⟩]).delivered = 1 :=
  ⟨rfl,
   batched_coalescing.2 (.node 0 0 [("a", .prim 0)])
     ⟨["a"], 1⟩ ⟨["a"], 2⟩ ⟨["a"], 3⟩ rfl⟩

/-- Looking up a key after updating it returns the new value. -/
theorem lookupF_updateF (k : String) (v' : PTree) :
    ∀ (fs : List (String × PTree)) (c : PTree),
      lookupF k fs = some c → lookupF k (updateF fs k v') = some v' := by
  intro fs
  induction fs with
  | nil => intro c h; simp [lookupF] at h
  | cons hd tl ih =>
    intro c h
    obtain ⟨k1, t1⟩ := hd
    by_cases hk : (k1 == k) = true
    · simp [updateF, hk, lookupF]
    · have h' : lookupF k tl = some c := by simpa [lookupF, hk] using h
      simpa [updateF, hk, lookupF] using ih c h'

/-- Claim C6: versions are natural numbers, and an effective write at a
path strictly increases (by one) the version of the node holding the
written field and of every ancestor node on the path: every proper
prefix `q` of the path (`p = q ++ r`, `r ≠ []`) names a node whose
version goes from `n` to `n + 1`. -/
theorem version_bump_propagates :
    ∀ (q r : List String), ∀ (p : List String) (t : PTree) (v : Int),
      (setPath t p v).2 = true → p = q ++ r → r ≠ [] →
      ∃ n, versionAt t q = some n ∧
        versionAt (setPath t p v).1 q = some (n + 1) := by
  intro q r
  induction q with
  | nil =>
    intro p t v h hpq hr
    simp only [List.nil_append] at hpq
    subst hpq
    cases t with
    | prim n =>
      cases p with
      | nil => exact absurd rfl hr
      | cons a as => simp [setPath] at h
    | node i ver fs =>
      refine ⟨ver, rfl, ?_⟩
      cases p with
      | nil => exact absurd rfl hr
      | cons k tail =>
        cases tail with
        | nil =>
          cases hf : lookupF k fs with
          | none => simp [setPath, hf, versionAt]
          | some c =>
            cases c with
            | prim old =>
              by_cases ho : (old == v) = true
              · simp [setPath, hf, ho] at h
              · simp only [Bool.not_eq_true] at ho
                simp [setPath, hf, ho, versionAt]
            | node j w gs => simp [setPath, hf, versionAt]
        | cons k2 rest2 =>
          cases hf : lookupF k fs with
          | none => simp [setPath, hf] at h
          | some child =>
            rcases hs : setPath child (k2 :: rest2) v with ⟨c2, ch⟩
            cases ch with
            | false => simp [setPath, hf, hs] at h
            | true => simp [setPath, hf, hs, versionAt]
  | cons k q' ih =>
    intro p t v h hpq hr
    subst hpq
    cases t with
    | prim n => simp [setPath] at h
    | node i ver fs =>
      cases hqr : q' ++ r with
      | nil =>
        rcases List.append_eq_nil.mp hqr with ⟨-, hr0⟩
        exact absurd hr0 hr
      | cons k2 rest2 =>
        rw [List.cons_append, hqr] at h ⊢
        cases hf : lookupF k fs with
        | none => simp [setPath, hf] at h
        | some child =>
          rcases hs : setPath child (k2 :: rest2) v with ⟨c2, ch⟩
          cases ch with
          | false => simp [setPath, hf, hs] at h
          | true =>
            have hch : (setPath child (k2 :: rest2) v).2 = true := by
              rw [hs]
            obtain ⟨n, h1, h2⟩ := ih (k2 :: rest2) child v hch hqr.symm hr
            rw [hs] at h2
            refine ⟨n, ?_, ?_⟩
            · simpa [versionAt, hf] using h1
            · have hl := lookupF_updateF k c2 fs child hf
              simp [setPath, hf, hs, versionAt, hl, h2]

/-- Concrete run of `version_bump_propagates`: writing `z` three levels
down bumps the version of the intermediate ancestor `x` (and by the same
theorem at `q = []` and `q = ["x", "y"]`, of the root and of the direct
holder). -/
theorem version_bump_propagates_witness :
    (setPath
        (.node 0 0 [("x", .node 1 0 [("y", .node 2 0 [("z", .prim 5)])])])
        ["x", "y", "z"] 6).2 = true ∧
    (["x", "y", "z"] : List String) = ["x"] ++ ["y", "z"] ∧
    (["y", "z"] : List String) ≠ [] ∧
    ∃ n, versionAt
        (.node 0 0 [("x", .node 1 0 [("y", .node 2 0 [("z", .prim 5)])])])
        ["x"] = some n ∧
      versionAt
        (setPath
          (.node 0 0 [("x", .node 1 0 [("y", .node 2 0 [("z", .prim 5)])])])
          ["x", "y", "z"] 6).1 ["x"] = some (n + 1) :=
  ⟨rfl, rfl, by simp,
   version_bump_propagates ["x"] ["y", "z"] ["x", "y", "z"]
     (.node 0 0 [("x", .node 1 0 [("y", .node 2 0 [("z", .prim 5)])])]) 6
     rfl rfl (by simp)⟩

mutual

/-- Recording a further access never removes a recorded path: the
affected record only grows within a pass. -/
theorem addPath_mem : ∀ (a : Affected) (p q : List String),
    affMem a p = true → affMem (addPath a q) p = true
  | a, p, [] => fun h => by simpa [addPath] using h
  | .used, [], _ :: _ => fun _ => by simp [affMem]
  | .used, _ :: _, _ :: _ => fun h => by simp [affMem] at h
  | .tracked _, [], _ :: _ => fun _ => by simp [affMem]
  | .tracked fs, p1 :: pr, k :: q' => fun h => by
    have h' : affMemF fs p1 pr = true := by simpa [affMem] using h
    have hmono := addPathF_memF fs p1 pr k q' h'
    simpa [addPath, affMem] using hmono
termination_by a _ q => (q.length, sizeOf a + 1)

/-- Field-list version of `addPath_mem`. -/
theorem addPathF_memF : ∀ (fs : AffectedFields) (p1 : String)
    (pr : List String) (k : String) (q' : List String),
    affMemF fs p1 pr = true → affMemF (addPathF fs k q') p1 pr = true
  | .nil, p1, pr, _, _ => fun h => by simp [affMemF] at h
  | .cons k' sub tl, p1, pr, k, q' => fun h => by
    by_cases h1 : (k' == k) = true
    · by_cases h2 : (k' == p1) = true
      · have hs : affMem sub pr = true := by simpa [affMemF, h2] using h
        have hmono := addPath_mem sub pr q' hs
        simp [addPathF, h1, affMemF, h2, hmono]
      · have ht : affMemF tl p1 pr = true := by simpa [affMemF, h2] using h
        simp [addPathF, h1, affMemF, h2, ht]
    · by_cases h2 : (k' == p1) = true
      · have hs : affMem sub pr = true := by simpa [affMemF, h2] using h
        simp [addPathF, h1, affMemF, h2, hs]
      · have ht : affMemF tl p1 pr = true := by simpa [affMemF, h2] using h
        have hmono := addPathF_memF tl p1 pr k q' ht
        simp [addPathF, h1, affMemF, h2, hmono]
termination_by fs _ _ _ q' => (q'.length + 1, sizeOf fs)

end

/-- Claim C7: a consumer's affected map only grows within one pass
(recording more accesses never drops a recorded path), and the next pass
replaces it instead of merging: the committed map is a freshly allocated
map (new identity, distinct from any previously committed one) holding
exactly the accesses of the new pass. -/
theorem affected_replaced_not_merged :
    (∀ (s : ConsumerState) (paths : List (List String)),
      (renderCommit s paths).lastAffected
          = some (s.nextAffId, buildAffected paths) ∧
      (renderCommit s paths).nextAffId = s.nextAffId + 1) ∧
    (∀ (s : ConsumerState) (paths : List (List String)) (i : Nat) (a : Affected),
      s.lastAffected = some (i, a) → i < s.nextAffId →
      (renderCommit s paths).lastAffected
          = some (s.nextAffId, buildAffected paths) ∧ s.nextAffId ≠ i) ∧
    (∀ (a : Affected) (p q : List String),
      affMem a p = true → affMem (addPath a q) p = true) := by
  refine ⟨fun s paths => ⟨rfl, rfl⟩, fun s paths i a _ hlt => ⟨rfl, ?_⟩, ?_⟩
  · exact Nat.ne_of_gt hlt
  · intro a p q h
    exact addPath_mem a p q h

/-- Concrete run of `affected_replaced_not_merged`: a consumer that
committed map number 0 commits a fresh map number 1 on the next pass,
holding only the new pass's access `a`; and recording a further access
`b` keeps `a` recorded. -/
theorem affected_replaced_not_merged_witness :
    ((renderCommit ⟨1, some (0, .used)⟩ [["a"]]).lastAffected
        = some (1, buildAffected [["a"]]) ∧ (1 : Nat) ≠ 0) ∧
    affMem (addPath (.tracked (.cons "a" .used .nil)) ["b"]) ["a"] = true :=
  ⟨affected_replaced_not_merged.2.1 ⟨1, some (0, .used)⟩ [["a"]] 0 .used rfl
     (by decide),
   affected_replaced_not_merged.2.2 (.tracked (.cons "a" .used .nil)) ["a"] ["b"]
     (by simp [affMem, affMemF])⟩

/-- The spec's example root shape: two sibling primitive fields `a` and
`b` (section 8, *Selective change detection*). -/
def pairTree (x y : Int) : PTree := .node 0 0 [("a", .prim x), ("b", .prim y)]

/-- An affected record holding only key `a` of the root. -/
def affOnlyA : Affected := .tracked (.cons "a" .used .nil)

/-- First snapshot call on the fresh root (snapshot and resulting
cache). -/
def basePair (x y : Int) : SnapVal × SnapCache :=
  snapshot (pairTree x y) initCache

/-- The consumer's previous snapshot. -/
def baseSnap (x y : Int) : SnapVal := (basePair x y).1

/-- The snapshot rebuilt after mutating the sibling key `b`. -/
def snapAfterB (x y y' : Int) : SnapVal :=
  (snapshot ((setPath (pairTree x y) ["b"] y').1) (basePair x y).2).1

/-- The snapshot rebuilt after mutating the tracked key `a`. -/
def snapAfterA (x y x' : Int) : SnapVal :=
  (snapshot ((setPath (pairTree x y) ["a"] x').1) (basePair x y).2).1

/-- Claim C1: a consumer whose affected record holds only key `a` is
reported unchanged by a mutation of the sibling key `b` — `isChanged` is
`false` and `getSnapshot` hands back the identical previous snapshot —
and reported changed by a mutation of `a`, where the fresh snapshot is
returned. -/
theorem selective_change_detection (x y x' y' : Int)
    (hx : x' ≠ x) (hy : y' ≠ y) :
    isChanged (baseSnap x y) (snapAfterB x y y') affOnlyA = .ok false ∧
    getSnapshot (snapAfterB x y y') (some (baseSnap x y)) (some affOnlyA)
      = (baseSnap x y, some (baseSnap x y)) ∧
    isChanged (baseSnap x y) (snapAfterA x y x') affOnlyA = .ok true ∧
    getSnapshot (snapAfterA x y x') (some (baseSnap x y)) (some affOnlyA)
      = (snapAfterA x y x', some (snapAfterA x y x')) := by
  have hab : (("a" : String) == "b") = false := by decide
  have hxe : (x == x') = false := beq_eq_false_iff_ne.mpr fun hh => hx hh.symm
  have hye : (y == y') = false := beq_eq_false_iff_ne.mpr fun hh => hy hh.symm
  have hs1 : snapshot (pairTree x y) initCache
      = (.obj 0 [("a", .prim x), ("b", .prim y)],
         ⟨some (0, .obj 0 [("a", .prim x), ("b", .prim y)]), 1⟩) := by
    simp [snapshot, initCache, pairTree, buildSnap, buildSnapF, treeVersion]
  have htb : setPath (pairTree x y) ["b"] y'
      = (.node 0 1 [("a", .prim x), ("b", .prim y')], true) := by
    simp [pairTree, setPath, lookupF, updateF, hab, hye]
  have hta : setPath (pairTree x y) ["a"] x'
      = (.node 0 1 [("a", .prim x'), ("b", .prim y)], true) := by
    simp [pairTree, setPath, lookupF, updateF, hxe]
  have hs2 : snapshot (.node 0 1 [("a", .prim x), ("b", .prim y')])
      (⟨some (0, .obj 0 [("a", .prim x), ("b", .prim y)]), 1⟩ : SnapCache)
      = (.obj 1 [("a", .prim x), ("b", .prim y')],
         ⟨some (1, .obj 1 [("a", .prim x), ("b", .prim y')]), 2⟩) := by
    simp [snapshot, treeVersion, buildSnap, buildSnapF]
  have hs3 : snapshot (.node 0 1 [("a", .prim x'), ("b", .prim y)])
      (⟨some (0, .obj 0 [("a", .prim x), ("b", .prim y)]), 1⟩ : SnapCache)
      = (.obj 1 [("a", .prim x'), ("b", .prim y)],
         ⟨some (1, .obj 1 [("a", .prim x'), ("b", .prim y)]), 2⟩) := by
    simp [snapshot, treeVersion, buildSnap, buildSnapF]
  have hb : snapAfterB x y y' = .obj 1 [("a", .prim x), ("b", .prim y')] := by
    rw [snapAfterB, basePair, hs1, htb]
    exact congrArg Prod.fst hs2
  have ha : snapAfterA x y x' = .obj 1 [("a", .prim x'), ("b", .prim y)] := by
    rw [snapAfterA, basePair, hs1, hta]
    exact congrArg Prod.fst hs3
  have hbase : baseSnap x y = .obj 0 [("a", .prim x), ("b", .prim y)] := by
    rw [baseSnap, basePair, hs1]
  have hcmpB : isChanged (.obj 0 [("a", .prim x), ("b", .prim y)])
      (.obj 1 [("a", .prim x), ("b", .prim y')]) affOnlyA = .ok false := by
    simp [affOnlyA, isChanged, isChangedF, sameRef, lookupS]
  have hcmpA : isChanged (.obj 0 [("a", .prim x), ("b", .prim y)])
      (.obj 1 [("a", .prim x'), ("b", .prim y)]) affOnlyA = .ok true := by
    simp [affOnlyA, isChanged, isChangedF, sameRef, lookupS, hxe]
  refine ⟨?_, ?_, ?_, ?_⟩
  · rw [hbase, hb]; exact hcmpB
  · rw [hbase, hb, getSnapshot, hcmpB]
  · rw [hbase, ha]; exact hcmpA
  · rw [hbase, ha, getSnapshot, hcmpA]

/-- Concrete run of `selective_change_detection` on the spec's example:
state `{a: 0, b: 0}`, consumer read only `a`; writing `b := 1` leaves it
unchanged with the identical snapshot, writing `a := 1` marks it
changed. -/
theorem selective_change_detection_witness :
    isChanged (baseSnap 0 0) (snapAfterB 0 0 1) affOnlyA = .ok false ∧
    getSnapshot (snapAfterB 0 0 1) (some (baseSnap 0 0)) (some affOnlyA)
      = (baseSnap 0 0, some (baseSnap 0 0)) ∧
    isChanged (baseSnap 0 0) (snapAfterA 0 0 1) affOnlyA = .ok true ∧
    getSnapshot (snapAfterA 0 0 1) (some (baseSnap 0 0)) (some affOnlyA)
      = (snapAfterA 0 0 1, some (snapAfterA 0 0 1)) :=
  selective_change_detection 0 0 1 1 (by decide) (by decide)

end Valtio
